import Mathlib

/-
  Verification development for the template synchronization and
  drift-detection logic of the PROLE-ISLAND/dev-tools repository.

  The sync engine (src/commands/sync.ts) and the compliance checker
  (the validate command) are shallowly embedded below.  File contents
  are modelled as lists of characters, paths as lists of path segments,
  and the filesystem as a pair of maps (files, dirs).  Remote access is
  modelled by an oracle mapping request paths to Except results, so a
  failed subprocess call is an explicit error value.
-/

/-- File contents are lists of characters. -/
abbrev Content := List Char

/-- The whitespace test used by trimming (space, newline, tab, carriage return). -/
def isWS (c : Char) : Bool := c = ' ' || c = '\n' || c = '\t' || c = '\r'

/-- Model of JavaScript String.prototype.trim: strip leading and trailing whitespace. -/
def trimL (s : Content) : Content :=
  ((s.dropWhile isWS).reverse.dropWhile isWS).reverse

/-- Model of JavaScript String.prototype.includes: does pat occur as a contiguous
substring of s? -/
def hasSub (s pat : Content) : Bool :=
  match s with
  | [] => pat.isPrefixOf []
  | c :: r => pat.isPrefixOf (c :: r) || hasSub r pat

/-- The text before the first occurrence of pat in s; this is parts[0] of
JavaScript s.split(pat) for a nonempty pat (and all of s when pat does not occur). -/
def splitHead (s pat : Content) : Content :=
  match s with
  | [] => []
  | c :: r => if pat.isPrefixOf (c :: r) then [] else c :: splitHead r pat

/-- The number of positions of s at which pat occurs as a substring. -/
def occCount (s pat : Content) : Nat :=
  match s with
  | [] => if pat.isPrefixOf [] then 1 else 0
  | c :: r => (if pat.isPrefixOf (c :: r) then 1 else 0) + occCount r pat

/-- The three per-file sync decisions of the sync command. -/
inductive SyncAction where
  | create
  | update
  | skip
deriving DecidableEq

/-- The flags accepted by the sync command. -/
structure SyncOptions where
  dryRun : Bool
  force : Bool

/-- Filesystem state: a partial map from paths (segment lists) to file contents,
plus the set of directories that exist. -/
structure FS where
  files : List String → Option Content
  dirs : List String → Bool

/-- Model of fs.writeFile: replace the content stored at a path. -/
def FS.write (fs : FS) (p : List String) (c : Content) : FS :=
  { fs with files := fun q => if q = p then some c else fs.files q }

/-- Model of fs.ensureDir: record that a directory exists. -/
def FS.mkDir (fs : FS) (p : List String) : FS :=
  { fs with dirs := fun q => if q = p then true else fs.dirs q }

/-- The fixed marker string delimiting the organization-owned section of CLAUDE.md
(sync.ts line 234). -/
def orgSectionMarker : Content := "# 組織共通ルール（PROLE-ISLAND/.github より）".data

/-- The tail of the marker (everything after its leading hash character). -/
def markerTail : Content := orgSectionMarker.tail

/-- The project-owned boilerplate written before the marker when CLAUDE.md is
created from scratch (sync.ts lines 209-223, up to but excluding the marker). -/
def projectHeader : Content :=
  "# プロジェクト固有の開発ルール\n\n<!-- このセクションをプロジェクトに合わせて編集 -->\n\n## 技術スタック\n- Next.js 15+ (App Router)\n- TypeScript\n- Tailwind CSS v4\n- shadcn/ui\n\n---\n\n".data

/-- The two newlines inserted after the marker. -/
def nl2 : Content := '\n' :: '\n' :: []

/-- A single trailing newline. -/
def nl1 : Content := '\n' :: []

/-- Model of checkAndUpdate (sync.ts lines 169-199): decide create/update/skip for a
non-rules target file and, outside dry-run, perform the corresponding write. -/
def checkAndUpdate (fs : FS) (filePath : List String) (newContent : Content)
    (options : SyncOptions) : SyncAction × FS :=
  match fs.files filePath with
  | none =>
      if !options.dryRun then
        (SyncAction.create, (fs.mkDir filePath.dropLast).write filePath newContent)
      else
        (SyncAction.create, fs)
  | some currentContent =>
      if trimL currentContent = trimL newContent then
        (SyncAction.skip, fs)
      else if !options.dryRun && options.force then
        (SyncAction.update, fs.write filePath newContent)
      else if !options.dryRun then
        (SyncAction.update, fs.write filePath newContent)
      else
        (SyncAction.update, fs)

/-- Model of updateClaudeMdOrgSection (sync.ts lines 201-253): create CLAUDE.md from
the built-in template, replace everything after the marker when the marker is
present, and skip a marker-free document unconditionally. -/
def updateClaudeMdOrgSection (fs : FS) (filePath : List String) (orgContent : Content)
    (options : SyncOptions) : SyncAction × FS :=
  match fs.files filePath with
  | none =>
      let newContent := projectHeader ++ orgSectionMarker ++ nl2 ++ orgContent ++ nl1
      if !options.dryRun then (SyncAction.create, fs.write filePath newContent)
      else (SyncAction.create, fs)
  | some currentContent =>
      if hasSub currentContent orgSectionMarker then
        let newContent :=
          splitHead currentContent orgSectionMarker ++ orgSectionMarker ++ nl2 ++ orgContent
        if trimL currentContent = trimL newContent then (SyncAction.skip, fs)
        else if !options.dryRun then (SyncAction.update, fs.write filePath newContent)
        else (SyncAction.update, fs)
      else
        (SyncAction.skip, fs)

/-- The remote bundle assembled by fetchOrgTemplates (sync.ts lines 101-106). -/
structure OrgTemplates where
  claudeMd : Option Content
  issueTemplates : List (String × Content)
  prTemplate : Option Content
  workflows : List (String × Content)
deriving DecidableEq

/-- Model of syncFiles iteration: run checkAndUpdate over each (filename, content)
pair of a template map, targeting dir ++ [filename] (sync.ts lines 33-37 and 51-55). -/
def syncFiles (fs : FS) (dir : List String) (items : List (String × Content))
    (options : SyncOptions) : List (List String × SyncAction) × FS :=
  match items with
  | [] => ([], fs)
  | nc :: rest =>
      let r := checkAndUpdate fs (dir ++ [nc.1]) nc.2 options
      let rr := syncFiles r.2 dir rest options
      ((dir ++ [nc.1], r.1) :: rr.1, rr.2)

/-- Model of the body of syncCommand (sync.ts lines 29-63) after the bundle has been
fetched: ensure the template directories, sync issue templates, the PR template,
workflow templates, and the CLAUDE.md organization section, in source order,
returning the reported (file, decision) pairs and the final filesystem. -/
def syncCommand (fs : FS) (cwd : List String) (tpl : OrgTemplates)
    (options : SyncOptions) : List (List String × SyncAction) × FS :=
  let itDir := cwd ++ [".github", "ISSUE_TEMPLATE"]
  let fs1 := fs.mkDir itDir
  let r1 := syncFiles fs1 itDir tpl.issueTemplates options
  let r2 :=
    match tpl.prTemplate with
    | some c =>
        let p := cwd ++ [".github", "PULL_REQUEST_TEMPLATE.md"]
        let a := checkAndUpdate r1.2 p c options
        ([(p, a.1)], a.2)
    | none => ([], r1.2)
  let wfDir := cwd ++ [".github", "workflows"]
  let fs3 := r2.2.mkDir wfDir
  let r3 := syncFiles fs3 wfDir tpl.workflows options
  let r4 :=
    match tpl.claudeMd with
    | some c =>
        let p := cwd ++ ["CLAUDE.md"]
        let a := updateClaudeMdOrgSection r3.2 p c options
        ([(p, a.1)], a.2)
    | none => ([], r3.2)
  (r1.1 ++ r2.1 ++ r3.1 ++ r4.1, r4.2)

/-- The status of one validation result (validate command). -/
inductive VStatus where
  | pass
  | warn
  | fail
deriving DecidableEq

/-- The number of pass results, as counted by the summary loop of validateCommand. -/
def passCount (rs : List VStatus) : Nat := rs.countP (fun r => r = VStatus.pass)

/-- The number of warn results. -/
def warnCount (rs : List VStatus) : Nat := rs.countP (fun r => r = VStatus.warn)

/-- The number of fail results. -/
def failCount (rs : List VStatus) : Nat := rs.countP (fun r => r = VStatus.fail)

/-- The aggregate score computed by validateCommand:
Math.round((passCount / results.length) * 100), with the real-number arithmetic
modelled exactly over the rationals and Math.round x modelled as the floor of
x + 1/2. -/
def score (rs : List VStatus) : Int :=
  round (((passCount rs : ℚ) / (rs.length : ℚ)) * 100)

/-- The aggregate-score formula as the specification words it:
round(100 x pass_count / total_result_count), with warn and fail results counted
in the denominator. -/
def specScore (rs : List VStatus) : Int :=
  round ((100 * (passCount rs : ℚ)) / ((passCount rs + warnCount rs + failCount rs : ℕ) : ℚ))

/-- Model of validateOrgSync (the best-effort remote comparison of the validate
command): the first argument is the outcome of fetching the canonical rules
document (an error value models a failed gh subprocess call, which the source
catches), the second is the local CLAUDE.md content when that file exists. -/
def validateOrgSync (fetched : Except String Content) (localDoc : Option Content) :
    VStatus :=
  match fetched with
  | Except.error _ => VStatus.warn
  | Except.ok orgContent =>
      match localDoc with
      | none => VStatus.fail
      | some localContent =>
          if hasSub localContent ((trimL orgContent).take 100) then VStatus.pass
          else VStatus.warn

/-- The remote-access oracle: fileContent models the gh-api subprocess returning a
file's decoded content, dirList models the gh-api subprocess returning a directory
listing; an error value models a rejected subprocess promise. -/
structure Oracle where
  fileContent : String → Except String Content
  dirList : String → Except String (List String)

/-- Model of fetchGitHubFile (sync.ts lines 147-156): try the fetch and map any
error to null. -/
def fetchGitHubFile (o : Oracle) (filePath : String) : Option Content :=
  match o.fileContent filePath with
  | Except.ok s => some s
  | Except.error _ => none

/-- Model of listGitHubDirectory (sync.ts lines 158-167): try the listing and map
any error to the empty list. -/
def listGitHubDirectory (o : Oracle) (dirPath : String) : List String :=
  match o.dirList dirPath with
  | Except.ok names => names
  | Except.error _ => []

/-- Model of the fetch loops of fetchOrgTemplates (sync.ts lines 119-128 and
133-142): for each listed filename with a matching extension, fetch it and keep it
only when the fetch succeeded with nonempty content (JavaScript truthiness of the
content string). -/
def fetchNamed (o : Oracle) (dir : String) (exts : List String) :
    List String → List (String × Content)
  | [] => []
  | f :: rest =>
      (if exts.any (fun e => f.endsWith e) then
        match fetchGitHubFile o (dir ++ "/" ++ f) with
        | some c => if c.isEmpty then [] else [(f, c)]
        | none => []
      else []) ++ fetchNamed o dir exts rest

/-- Model of fetchOrgTemplates (sync.ts lines 108-145): assemble the bundle from
the individual fail-soft fetches, in source order. -/
def fetchOrgTemplates (o : Oracle) : OrgTemplates :=
  let claudeMd := fetchGitHubFile o "CLAUDE.md"
  let issueFiles := listGitHubDirectory o "ISSUE_TEMPLATE"
  let issueTemplates := fetchNamed o "ISSUE_TEMPLATE" [".yml", ".yaml"] issueFiles
  let prTemplate := fetchGitHubFile o "PULL_REQUEST_TEMPLATE.md"
  let workflowFiles := listGitHubDirectory o "workflow-templates"
  let workflows := fetchNamed o "workflow-templates" [".yml"] workflowFiles
  { claudeMd := claudeMd, issueTemplates := issueTemplates,
    prTemplate := prTemplate, workflows := workflows }

/-- fetchGitHubFile with the try/catch made explicit in the Except monad: the
underlying subprocess call may fail, and the catch handler maps the failure to
null. -/
def fetchGitHubFileE (o : Oracle) (filePath : String) : Except String (Option Content) :=
  Except.tryCatch (do
    let s ← o.fileContent filePath
    pure (some s)) (fun _ => pure none)

/-- listGitHubDirectory with the try/catch made explicit in the Except monad. -/
def listGitHubDirectoryE (o : Oracle) (dirPath : String) : Except String (List String) :=
  Except.tryCatch (o.dirList dirPath) (fun _ => pure [])

/-- The fetch loops written in the Except monad, where an uncaught failure of any
awaited step would propagate as an error to the caller. -/
def fetchNamedE (o : Oracle) (dir : String) (exts : List String) :
    List String → Except String (List (String × Content))
  | [] => pure []
  | f :: rest => do
      let hd ←
        if exts.any (fun e => f.endsWith e) then do
          let c? ← fetchGitHubFileE o (dir ++ "/" ++ f)
          match c? with
          | some c => if c.isEmpty then pure [] else pure [(f, c)]
          | none => pure []
        else pure []
      let tl ← fetchNamedE o dir exts rest
      pure (hd ++ tl)

/-- fetchOrgTemplates written in the Except monad, where an uncaught failure of
any awaited step would propagate as an error to the caller. -/
def fetchOrgTemplatesE (o : Oracle) : Except String OrgTemplates := do
  let claudeMd ← fetchGitHubFileE o "CLAUDE.md"
  let issueFiles ← listGitHubDirectoryE o "ISSUE_TEMPLATE"
  let issueTemplates ← fetchNamedE o "ISSUE_TEMPLATE" [".yml", ".yaml"] issueFiles
  let prTemplate ← fetchGitHubFileE o "PULL_REQUEST_TEMPLATE.md"
  let workflowFiles ← listGitHubDirectoryE o "workflow-templates"
  let workflows ← fetchNamedE o "workflow-templates" [".yml"] workflowFiles
  pure { claudeMd := claudeMd, issueTemplates := issueTemplates,
         prTemplate := prTemplate, workflows := workflows }

/-- A list is a Boolean prefix of itself followed by anything. -/
theorem ipo_append_self (pat u : Content) : pat.isPrefixOf (pat ++ u) = true := by
  induction pat with
  | nil => simp [List.isPrefixOf]
  | cons a as ih => simp [List.isPrefixOf, ih]

/-- Whether pat is a Boolean prefix of v ++ u does not depend on u once v is at
least as long as pat. -/
theorem ipo_stable (pat : Content) :
    ∀ (v u u' : Content), pat.length ≤ v.length →
      pat.isPrefixOf (v ++ u) = pat.isPrefixOf (v ++ u') := by
  induction pat with
  | nil => intro v u u' _; simp [List.isPrefixOf]
  | cons a as ih =>
    intro v u u' h
    cases v with
    | nil => simp at h
    | cons b bs =>
      simp only [List.cons_append, List.isPrefixOf, List.append_eq]
      rw [ih bs u u' (by simpa using h)]

/-- If pat does not occur in s then it occurs at no position of s. -/
theorem occCount_eq_zero_of_not_hasSub (s pat : Content) (h : hasSub s pat = false) :
    occCount s pat = 0 := by
  induction s with
  | nil =>
    unfold hasSub at h
    unfold occCount
    simp [h]
  | cons c r ih =>
    unfold hasSub at h
    unfold occCount
    rcases Bool.or_eq_false_iff.mp h with ⟨h1, h2⟩
    simp [h1, ih h2]

/-- No position strictly before the first occurrence of pat in s matches pat. -/
theorem splitHead_no_match (s pat : Content) :
    ∀ i, i < (splitHead s pat).length → pat.isPrefixOf (s.drop i) = false := by
  induction s with
  | nil => intro i hi; simp [splitHead] at hi
  | cons c r ih =>
    intro i hi
    unfold splitHead at hi
    by_cases hp : pat.isPrefixOf (c :: r) = true
    · simp [hp] at hi
    · rw [if_neg (by simpa using hp)] at hi
      cases i with
      | zero =>
        simpa using Bool.not_eq_true _ |>.mp hp
      | succ j =>
        rw [List.drop_succ_cons]
        exact ih j (by simpa using hi)

/-- When pat occurs in s, s decomposes as the text before the first occurrence,
then pat, then a remainder. -/
theorem splitHead_decomp (s pat : Content) (h : hasSub s pat = true) :
    ∃ rest, s = splitHead s pat ++ (pat ++ rest) := by
  induction s with
  | nil =>
    unfold hasSub at h
    have hpat : pat = [] := by
      cases pat with
      | nil => rfl
      | cons a as => simp [List.isPrefixOf] at h
    subst hpat
    exact ⟨[], rfl⟩
  | cons c r ih =>
    unfold hasSub at h
    by_cases hp : pat.isPrefixOf (c :: r) = true
    · obtain ⟨t, ht⟩ := List.isPrefixOf_iff_prefix.mp hp
      refine ⟨t, ?_⟩
      unfold splitHead
      rw [if_pos hp]
      simpa using ht.symm
    · have h2 : hasSub r pat = true := by
        rcases Bool.or_eq_true_iff.mp h with h' | h'
        · exact absurd h' hp
        · exact h'
      obtain ⟨rest, hrest⟩ := ih h2
      refine ⟨rest, ?_⟩
      unfold splitHead
      rw [if_neg (by simpa using hp)]
      simpa using hrest

/-- splitHead of pre ++ z recovers pre when pat starts z and matches nowhere
inside pre. -/
theorem splitHead_append (pre z pat : Content) (hz : pat.isPrefixOf z = true)
    (hpre : ∀ i, i < pre.length → pat.isPrefixOf ((pre ++ z).drop i) = false) :
    splitHead (pre ++ z) pat = pre := by
  induction pre with
  | nil =>
    simp only [List.nil_append]
    cases z with
    | nil => rfl
    | cons c r =>
      unfold splitHead
      rw [if_pos hz]
  | cons a pre' ih =>
    have h0 := hpre 0 (by simp)
    simp only [List.drop_zero] at h0
    simp only [List.cons_append] at h0 ⊢
    unfold splitHead
    rw [if_neg (by simp [h0])]
    have ih' := ih (fun i hi => by
      have := hpre (i + 1) (by simpa using Nat.succ_lt_succ hi)
      simpa [List.cons_append, List.drop_succ_cons] using this)
    rw [ih']

/-- Replacing everything after the first occurrence of pat still leaves no match
strictly before that occurrence. -/
theorem no_match_before (s pat u : Content) (h : hasSub s pat = true) :
    ∀ i, i < (splitHead s pat).length →
      pat.isPrefixOf ((splitHead s pat ++ (pat ++ u)).drop i) = false := by
  obtain ⟨rest, hrest⟩ := splitHead_decomp s pat h
  intro i hi
  have hle : i ≤ (splitHead s pat).length := le_of_lt hi
  rw [List.drop_append_of_le_length hle]
  have hst := ipo_stable pat ((splitHead s pat).drop i ++ pat) u rest (by simp)
  simp only [List.append_assoc] at hst
  rw [hst, ← List.drop_append_of_le_length hle, ← hrest]
  exact splitHead_no_match s pat i hi

/-- The text before the marker is unchanged when the tail after the first
occurrence of pat is replaced by anything. -/
theorem splitHead_reassemble (s pat u : Content) (h : hasSub s pat = true) :
    splitHead (splitHead s pat ++ (pat ++ u)) pat = splitHead s pat :=
  splitHead_append _ _ _ (ipo_append_self pat u) (no_match_before s pat u h)

/-- Occurrence counting ignores a leading block inside which pat never matches. -/
theorem occCount_append_skip (pre z pat : Content)
    (hpre : ∀ i, i < pre.length → pat.isPrefixOf ((pre ++ z).drop i) = false) :
    occCount (pre ++ z) pat = occCount z pat := by
  induction pre with
  | nil => rfl
  | cons a pre' ih =>
    have h0 := hpre 0 (by simp)
    simp only [List.drop_zero, List.cons_append] at h0
    simp only [List.cons_append]
    rw [show occCount (a :: (pre' ++ z)) pat
        = (if pat.isPrefixOf (a :: (pre' ++ z)) then (1 : Nat) else 0)
          + occCount (pre' ++ z) pat from rfl]
    rw [if_neg (by simp [h0])]
    simp only [Nat.zero_add]
    exact ih (fun i hi => by
      have := hpre (i + 1) (by simpa using Nat.succ_lt_succ hi)
      simpa [List.cons_append, List.drop_succ_cons] using this)

/-- A pattern starting with c0 matches nowhere along a block free of c0 followed
by a text in which it does not occur. -/
theorem occCount_no_head (c0 : Char) (m' w org : Content)
    (hw : ∀ a ∈ w, ¬ a = c0)
    (horg : hasSub org (c0 :: m') = false) :
    occCount (w ++ org) (c0 :: m') = 0 := by
  induction w with
  | nil => simpa using occCount_eq_zero_of_not_hasSub org (c0 :: m') horg
  | cons a w' ih =>
    have ha : ¬ a = c0 := hw a (by simp)
    simp only [List.cons_append]
    unfold occCount
    have hp : (c0 :: m').isPrefixOf (a :: (w' ++ org)) = false := by
      simp only [List.isPrefixOf, Bool.and_eq_false_iff]
      left
      exact beq_eq_false_iff_ne.mpr (fun he => ha he.symm)
    rw [if_neg (by simp [hp])]
    simpa using ih (fun b hb => hw b (by simp [hb]))

/-- pat occurs in any text of the form a ++ pat ++ b. -/
theorem hasSub_append_mid (a pat b : Content) : hasSub (a ++ (pat ++ b)) pat = true := by
  induction a with
  | nil =>
    simp only [List.nil_append]
    cases hpb : pat ++ b with
    | nil =>
      have : pat = [] := by
        cases pat with
        | nil => rfl
        | cons x xs => simp at hpb
      subst this
      rfl
    | cons c r =>
      unfold hasSub
      rw [← hpb, ipo_append_self]
      simp
  | cons x a' ih =>
    simp only [List.cons_append]
    unfold hasSub
    rw [ih]
    simp

/-- Trimming ignores a trailing whitespace character. -/
theorem trimL_append_ws (y : Content) (w : Char) (hw : isWS w = true) :
    trimL (y ++ [w]) = trimL y := by
  unfold trimL
  rw [List.dropWhile_append]
  by_cases he : (y.dropWhile isWS).isEmpty = true
  · rw [if_pos he]
    have hy : y.dropWhile isWS = [] := by simpa [List.isEmpty_iff] using he
    simp [List.dropWhile_cons, hw, hy]
  · rw [if_neg he]
    rw [List.reverse_append]
    simp [List.dropWhile_cons, hw]

/-- The marker begins with its hash character. -/
theorem marker_cons : orgSectionMarker = '#' :: markerTail := rfl

/-- The hash character never recurs after the head of the marker, nor in the two
newlines appended after it. -/
theorem markerTail_nl2_no_hash : ∀ a ∈ markerTail ++ nl2, ¬ a = '#' := by decide

set_option maxRecDepth 40000 in
/-- The marker matches at no position strictly inside the built-in project
header. -/
theorem projectHeader_no_match :
    ∀ i, i < projectHeader.length →
      orgSectionMarker.isPrefixOf (projectHeader.drop i ++ orgSectionMarker) = false := by
  decide

/-- splitHead recovers the project header in front of the marker, whatever
follows the marker. -/
theorem splitHead_header (u : Content) :
    splitHead (projectHeader ++ (orgSectionMarker ++ u)) orgSectionMarker
      = projectHeader := by
  apply splitHead_append
  · exact ipo_append_self _ _
  · intro i hi
    rw [List.drop_append_of_le_length (le_of_lt hi)]
    have h := ipo_stable orgSectionMarker (projectHeader.drop i ++ orgSectionMarker) u []
      (by simp)
    simp only [List.append_assoc, List.append_nil] at h
    rw [h]
    exact projectHeader_no_match i hi

/-- Writing a file stores its content at the written path. -/
theorem FS.files_write_self (fs : FS) (p : List String) (c : Content) :
    (fs.write p c).files p = some c := by
  simp [FS.write]

/-- Writing a file leaves every other path unchanged. -/
theorem FS.files_write_ne (fs : FS) (p : List String) (c : Content)
    (q : List String) (h : q ≠ p) : (fs.write p c).files q = fs.files q := by
  simp [FS.write, h]

/-- Creating a directory does not change any file. -/
theorem FS.files_mkDir (fs : FS) (d : List String) : (fs.mkDir d).files = fs.files := rfl

/-- The content stored at a path agrees with a candidate content up to trimming. -/
def fileStable (stored : Option Content) (c : Content) : Prop :=
  ∃ c', stored = some c' ∧ trimL c' = trimL c

/-- An existing file whose trimmed content equals the trimmed candidate is always
skipped and the filesystem returned untouched, for every dry-run and force flag. -/
theorem checkAndUpdate_skip_of_stable (fs : FS) (p : List String) (c : Content)
    (options : SyncOptions) (h : fileStable (fs.files p) c) :
    checkAndUpdate fs p c options = (SyncAction.skip, fs) := by
  obtain ⟨c', hc', ht⟩ := h
  unfold checkAndUpdate
  rw [hc']
  simp [ht]

/-- After a non-dry-run checkAndUpdate, the stored content at the target path
agrees with the candidate up to trimming. -/
theorem checkAndUpdate_post (fs : FS) (p : List String) (c : Content) (force : Bool) :
    fileStable ((checkAndUpdate fs p c ⟨false, force⟩).2.files p) c := by
  unfold checkAndUpdate
  cases h : fs.files p with
  | none =>
    refine ⟨c, ?_, rfl⟩
    simp [FS.write]
  | some cur =>
    by_cases ht : trimL cur = trimL c
    · exact ⟨cur, by simp [ht, h], ht⟩
    · cases force <;> refine ⟨c, ?_, rfl⟩ <;> simp [ht, FS.write]

/-- checkAndUpdate touches no file other than its target. -/
theorem checkAndUpdate_frame (fs : FS) (p : List String) (c : Content)
    (options : SyncOptions) (q : List String) (hq : q ≠ p) :
    (checkAndUpdate fs p c options).2.files q = fs.files q := by
  unfold checkAndUpdate
  cases h : fs.files p with
  | none =>
    by_cases hd : options.dryRun
    · simp [hd]
    · simp [hd, FS.write, FS.mkDir, hq]
  | some cur =>
    by_cases ht : trimL cur = trimL c
    · simp [ht]
    · by_cases hd : options.dryRun <;> cases hf : options.force <;>
        simp [ht, hd, FS.write, hq]

/-- The stored rules document is one the CLAUDE.md updater will leave alone:
either the marker is absent, or the reconstructed document equals the stored one
up to trimming. -/
def cmStable (stored : Option Content) (oc : Content) : Prop :=
  ∃ cur, stored = some cur ∧
    (hasSub cur orgSectionMarker = false ∨
      trimL cur = trimL (splitHead cur orgSectionMarker ++ orgSectionMarker ++ nl2 ++ oc))

/-- A stable rules document is skipped and the filesystem returned untouched, for
every dry-run and force flag. -/
theorem updateClaudeMdOrgSection_skip_of_stable (fs : FS) (p : List String)
    (oc : Content) (options : SyncOptions) (h : cmStable (fs.files p) oc) :
    updateClaudeMdOrgSection fs p oc options = (SyncAction.skip, fs) := by
  obtain ⟨cur, hc, hcase⟩ := h
  unfold updateClaudeMdOrgSection
  rw [hc]
  rcases hcase with hno | htr
  · simp [hno]
  · by_cases hs : hasSub cur orgSectionMarker = true <;> simp [hs, htr]

/-- After a non-dry-run updateClaudeMdOrgSection, the stored rules document is
stable for the same organization content. -/
theorem updateClaudeMdOrgSection_post (fs : FS) (p : List String) (oc : Content)
    (force : Bool) :
    cmStable ((updateClaudeMdOrgSection fs p oc ⟨false, force⟩).2.files p) oc := by
  cases h : fs.files p with
  | none =>
    have e : updateClaudeMdOrgSection fs p oc ⟨false, force⟩
        = (SyncAction.create,
           fs.write p (projectHeader ++ orgSectionMarker ++ nl2 ++ oc ++ nl1)) := by
      unfold updateClaudeMdOrgSection
      rw [h]
      simp
    rw [e]
    refine ⟨projectHeader ++ orgSectionMarker ++ nl2 ++ oc ++ nl1,
      FS.files_write_self _ _ _, Or.inr ?_⟩
    have hsh : splitHead (projectHeader ++ orgSectionMarker ++ nl2 ++ oc ++ nl1)
        orgSectionMarker = projectHeader := by
      have hh := splitHead_header (nl2 ++ (oc ++ nl1))
      simpa [List.append_assoc] using hh
    rw [hsh]
    have htw := trimL_append_ws (projectHeader ++ orgSectionMarker ++ nl2 ++ oc) '\n'
      (by decide)
    simpa [nl1] using htw
  | some cur =>
    by_cases hs : hasSub cur orgSectionMarker = true
    · by_cases ht : trimL cur
          = trimL (splitHead cur orgSectionMarker ++ (orgSectionMarker ++ (nl2 ++ oc)))
      · have e : updateClaudeMdOrgSection fs p oc ⟨false, force⟩ = (SyncAction.skip, fs) := by
          unfold updateClaudeMdOrgSection
          rw [h]
          simp [hs, ht]
        rw [e]
        exact ⟨cur, h, Or.inr (by simpa [List.append_assoc] using ht)⟩
      · have e : updateClaudeMdOrgSection fs p oc ⟨false, force⟩
            = (SyncAction.update,
               fs.write p (splitHead cur orgSectionMarker ++ (orgSectionMarker ++ (nl2 ++ oc)))) := by
          unfold updateClaudeMdOrgSection
          rw [h]
          simp [hs, ht, List.append_assoc]
        rw [e]
        refine ⟨splitHead cur orgSectionMarker ++ (orgSectionMarker ++ (nl2 ++ oc)),
          FS.files_write_self _ _ _, Or.inr ?_⟩
        have hsh : splitHead (splitHead cur orgSectionMarker ++ (orgSectionMarker ++ (nl2 ++ oc)))
            orgSectionMarker = splitHead cur orgSectionMarker :=
          splitHead_reassemble cur orgSectionMarker (nl2 ++ oc) hs
        rw [hsh]
        simp [List.append_assoc]
    · have e : updateClaudeMdOrgSection fs p oc ⟨false, force⟩ = (SyncAction.skip, fs) := by
        unfold updateClaudeMdOrgSection
        rw [h]
        simp [hs]
      rw [e]
      exact ⟨cur, h, Or.inl (by simpa using hs)⟩

/-- updateClaudeMdOrgSection touches no file other than its target. -/
theorem updateClaudeMdOrgSection_frame (fs : FS) (p : List String) (oc : Content)
    (options : SyncOptions) (q : List String) (hq : q ≠ p) :
    (updateClaudeMdOrgSection fs p oc options).2.files q = fs.files q := by
  unfold updateClaudeMdOrgSection
  cases h : fs.files p with
  | none =>
    by_cases hd : options.dryRun <;> simp [hd, FS.write, hq]
  | some cur =>
    by_cases hs : hasSub cur orgSectionMarker = true
    · by_cases ht : trimL cur
          = trimL (splitHead cur orgSectionMarker ++ (orgSectionMarker ++ (nl2 ++ oc)))
      · simp [hs, ht]
      · by_cases hd : options.dryRun <;> simp [hs, ht, hd, FS.write, hq]
    · simp [hs]

/-- Appending the same left factor preserves disequality of paths. -/
theorem ne_append_of_ne (cwd : List String) {a b : List String} (h : a ≠ b) :
    cwd ++ a ≠ cwd ++ b :=
  fun hc => h (List.append_cancel_left hc)

/-- An issue-template path never collides with the PR-template path. -/
theorem itPath_ne_prPath (cwd : List String) (n : String) :
    (cwd ++ [".github", "ISSUE_TEMPLATE"]) ++ [n]
      ≠ cwd ++ [".github", "PULL_REQUEST_TEMPLATE.md"] := by
  rw [List.append_assoc]
  exact ne_append_of_ne cwd (by simp)

/-- An issue-template path never collides with a workflow path. -/
theorem itPath_ne_wfPath (cwd : List String) (n m : String) :
    (cwd ++ [".github", "ISSUE_TEMPLATE"]) ++ [n]
      ≠ (cwd ++ [".github", "workflows"]) ++ [m] := by
  rw [List.append_assoc, List.append_assoc]
  exact ne_append_of_ne cwd (by simp)

/-- An issue-template path never collides with the CLAUDE.md path. -/
theorem itPath_ne_cmPath (cwd : List String) (n : String) :
    (cwd ++ [".github", "ISSUE_TEMPLATE"]) ++ [n] ≠ cwd ++ ["CLAUDE.md"] := by
  rw [List.append_assoc]
  exact ne_append_of_ne cwd (by simp)

/-- The PR-template path never collides with a workflow path. -/
theorem prPath_ne_wfPath (cwd : List String) (m : String) :
    cwd ++ [".github", "PULL_REQUEST_TEMPLATE.md"]
      ≠ (cwd ++ [".github", "workflows"]) ++ [m] := by
  rw [List.append_assoc]
  exact ne_append_of_ne cwd (by simp)

/-- The PR-template path never collides with the CLAUDE.md path. -/
theorem prPath_ne_cmPath (cwd : List String) :
    cwd ++ [".github", "PULL_REQUEST_TEMPLATE.md"] ≠ cwd ++ ["CLAUDE.md"] :=
  ne_append_of_ne cwd (by simp)

/-- A workflow path never collides with the CLAUDE.md path. -/
theorem wfPath_ne_cmPath (cwd : List String) (m : String) :
    (cwd ++ [".github", "workflows"]) ++ [m] ≠ cwd ++ ["CLAUDE.md"] := by
  rw [List.append_assoc]
  exact ne_append_of_ne cwd (by simp)

/-- Distinct filenames give distinct paths in the same directory. -/
theorem dirPath_ne_of_ne (dir : List String) {n m : String} (h : n ≠ m) :
    dir ++ [n] ≠ dir ++ [m] :=
  ne_append_of_ne dir (by simp [h])

/-- The file loop touches no file outside its target paths. -/
theorem syncFiles_frame (dir : List String) (items : List (String × Content))
    (options : SyncOptions) (q : List String) :
    ∀ fs : FS, (∀ nc ∈ items, q ≠ dir ++ [nc.1]) →
      (syncFiles fs dir items options).2.files q = fs.files q := by
  induction items with
  | nil => intro fs _; rfl
  | cons nc0 rest ih =>
    intro fs hq
    unfold syncFiles
    rw [ih _ (fun mc hm => hq mc (by simp [hm]))]
    exact checkAndUpdate_frame _ _ _ _ _ (hq nc0 (by simp))

/-- After a non-dry-run file loop over templates with distinct filenames, every
target path stores content that agrees with its candidate up to trimming. -/
theorem syncFiles_post (dir : List String) (items : List (String × Content))
    (force : Bool) :
    ∀ fs : FS, (items.map Prod.fst).Nodup →
      ∀ nc ∈ items,
        fileStable ((syncFiles fs dir items ⟨false, force⟩).2.files (dir ++ [nc.1])) nc.2 := by
  induction items with
  | nil => intro fs _ nc hm; simp at hm
  | cons nc0 rest ih =>
    intro fs hnd nc hm
    rw [List.map_cons, List.nodup_cons] at hnd
    rcases List.mem_cons.mp hm with h0 | hr
    · subst h0
      have hfr : ∀ mc ∈ rest, (dir ++ [nc.1]) ≠ dir ++ [mc.1] := by
        intro mc hm'
        refine dirPath_ne_of_ne dir (fun he => hnd.1 ?_)
        rw [he]
        exact List.mem_map_of_mem Prod.fst hm'
      have e := syncFiles_frame dir rest ⟨false, force⟩ (dir ++ [nc.1])
        ((checkAndUpdate fs (dir ++ [nc.1]) nc.2 ⟨false, force⟩).2) hfr
      simp only [syncFiles, e]
      exact checkAndUpdate_post fs (dir ++ [nc.1]) nc.2 force
    · exact ih _ hnd.2 nc hr

/-- When every target of the file loop is already stable, the loop reports skip
for every file and returns the filesystem unchanged. -/
theorem syncFiles_allSkip (dir : List String) (items : List (String × Content))
    (options : SyncOptions) :
    ∀ fs : FS, (∀ nc ∈ items, fileStable (fs.files (dir ++ [nc.1])) nc.2) →
      syncFiles fs dir items options
        = (items.map (fun nc => (dir ++ [nc.1], SyncAction.skip)), fs) := by
  induction items with
  | nil => intro fs _; rfl
  | cons nc0 rest ih =>
    intro fs h
    have e1 := checkAndUpdate_skip_of_stable fs (dir ++ [nc0.1]) nc0.2 options
      (h nc0 (by simp))
    have e2 := ih fs (fun mc hm => h mc (by simp [hm]))
    simp only [syncFiles, e1, e2, List.map_cons]

/-- Per-artifact stability of a working directory with respect to a bundle: every
issue template, the PR template, every workflow template, and the rules document
are in the state the sync command would leave them in. -/
def bundleStable (fs : FS) (cwd : List String) (tpl : OrgTemplates) : Prop :=
  (∀ nc ∈ tpl.issueTemplates,
      fileStable (fs.files ((cwd ++ [".github", "ISSUE_TEMPLATE"]) ++ [nc.1])) nc.2)
  ∧ (∀ c, tpl.prTemplate = some c →
      fileStable (fs.files (cwd ++ [".github", "PULL_REQUEST_TEMPLATE.md"])) c)
  ∧ (∀ nc ∈ tpl.workflows,
      fileStable (fs.files ((cwd ++ [".github", "workflows"]) ++ [nc.1])) nc.2)
  ∧ (∀ c, tpl.claudeMd = some c → cmStable (fs.files (cwd ++ ["CLAUDE.md"])) c)

/-- On a stable working directory the sync command reports skip for every file,
whatever the flags. -/
theorem syncCommand_allSkip (fs : FS) (cwd : List String) (tpl : OrgTemplates)
    (options : SyncOptions) (h : bundleStable fs cwd tpl) :
    ∀ pa ∈ (syncCommand fs cwd tpl options).1, pa.2 = SyncAction.skip := by
  obtain ⟨hit, hpr, hwf, hcm⟩ := h
  have e1 := syncFiles_allSkip (cwd ++ [".github", "ISSUE_TEMPLATE"]) tpl.issueTemplates
    options (fs.mkDir (cwd ++ [".github", "ISSUE_TEMPLATE"])) hit
  have e3 := syncFiles_allSkip (cwd ++ [".github", "workflows"]) tpl.workflows options
    ((fs.mkDir (cwd ++ [".github", "ISSUE_TEMPLATE"])).mkDir
      (cwd ++ [".github", "workflows"])) hwf
  intro pa hpa
  cases hp : tpl.prTemplate with
  | some c =>
    have e2 := checkAndUpdate_skip_of_stable
      (fs.mkDir (cwd ++ [".github", "ISSUE_TEMPLATE"]))
      (cwd ++ [".github", "PULL_REQUEST_TEMPLATE.md"]) c options (hpr c hp)
    cases hc : tpl.claudeMd with
    | some oc =>
      have e4 := updateClaudeMdOrgSection_skip_of_stable
        ((fs.mkDir (cwd ++ [".github", "ISSUE_TEMPLATE"])).mkDir
          (cwd ++ [".github", "workflows"]))
        (cwd ++ ["CLAUDE.md"]) oc options (hcm oc hc)
      simp only [syncCommand, hp, hc, e1, e2, e3, e4, List.mem_append, List.mem_map,
        List.mem_singleton] at hpa
      rcases hpa with ((⟨nc, _, he⟩ | he) | ⟨nc, _, he⟩) | he <;> first | rw [← he] | rw [he]
    | none =>
      simp only [syncCommand, hp, hc, e1, e2, e3, List.mem_append, List.mem_map,
        List.mem_singleton, List.append_nil] at hpa
      rcases hpa with (⟨nc, _, he⟩ | he) | ⟨nc, _, he⟩ <;> first | rw [← he] | rw [he]
  | none =>
    cases hc : tpl.claudeMd with
    | some oc =>
      have e4 := updateClaudeMdOrgSection_skip_of_stable
        ((fs.mkDir (cwd ++ [".github", "ISSUE_TEMPLATE"])).mkDir
          (cwd ++ [".github", "workflows"]))
        (cwd ++ ["CLAUDE.md"]) oc options (hcm oc hc)
      simp only [syncCommand, hp, hc, e1, e3, e4, List.mem_append, List.mem_map,
        List.mem_singleton, List.append_nil] at hpa
      rcases hpa with (⟨nc, _, he⟩ | ⟨nc, _, he⟩) | he <;> first | rw [← he] | rw [he]
    | none =>
      simp only [syncCommand, hp, hc, e1, e3, List.mem_append, List.mem_map,
        List.mem_singleton, List.append_nil] at hpa
      rcases hpa with ⟨nc, _, he⟩ | ⟨nc, _, he⟩ <;> rw [← he]

/-- After a non-dry-run sync with distinct template filenames, the working
directory is stable with respect to the bundle. -/
theorem syncCommand_post (fs : FS) (cwd : List String) (tpl : OrgTemplates)
    (force : Bool)
    (h1 : (tpl.issueTemplates.map Prod.fst).Nodup)
    (h2 : (tpl.workflows.map Prod.fst).Nodup) :
    bundleStable (syncCommand fs cwd tpl ⟨false, force⟩).2 cwd tpl := by
  cases hp : tpl.prTemplate with
  | some c =>
    cases hc : tpl.claudeMd with
    | some oc =>
      simp only [syncCommand, bundleStable, hp, hc]
      refine ⟨?_, ?_, ?_, ?_⟩
      · intro nc hm
        rw [updateClaudeMdOrgSection_frame _ _ _ _ _ (itPath_ne_cmPath cwd nc.1)]
        rw [syncFiles_frame _ _ _ _ _ (fun mc _ => itPath_ne_wfPath cwd nc.1 mc.1)]
        rw [FS.files_mkDir]
        rw [checkAndUpdate_frame _ _ _ _ _ (itPath_ne_prPath cwd nc.1)]
        exact syncFiles_post _ _ _ _ h1 nc hm
      · intro c' hc'
        have hcc := Option.some.inj hc'
        subst hcc
        rw [updateClaudeMdOrgSection_frame _ _ _ _ _ (prPath_ne_cmPath cwd)]
        rw [syncFiles_frame _ _ _ _ _ (fun mc _ => prPath_ne_wfPath cwd mc.1)]
        rw [FS.files_mkDir]
        exact checkAndUpdate_post _ _ _ _
      · intro nc hm
        rw [updateClaudeMdOrgSection_frame _ _ _ _ _ (wfPath_ne_cmPath cwd nc.1)]
        exact syncFiles_post _ _ _ _ h2 nc hm
      · intro oc' hoc'
        have hcc := Option.some.inj hoc'
        subst hcc
        exact updateClaudeMdOrgSection_post _ _ _ _
    | none =>
      simp only [syncCommand, bundleStable, hp, hc]
      refine ⟨?_, ?_, ?_, ?_⟩
      · intro nc hm
        rw [syncFiles_frame _ _ _ _ _ (fun mc _ => itPath_ne_wfPath cwd nc.1 mc.1)]
        rw [FS.files_mkDir]
        rw [checkAndUpdate_frame _ _ _ _ _ (itPath_ne_prPath cwd nc.1)]
        exact syncFiles_post _ _ _ _ h1 nc hm
      · intro c' hc'
        have hcc := Option.some.inj hc'
        subst hcc
        rw [syncFiles_frame _ _ _ _ _ (fun mc _ => prPath_ne_wfPath cwd mc.1)]
        rw [FS.files_mkDir]
        exact checkAndUpdate_post _ _ _ _
      · intro nc hm
        exact syncFiles_post _ _ _ _ h2 nc hm
      · intro oc' hoc'
        exact Option.noConfusion hoc'
  | none =>
    cases hc : tpl.claudeMd with
    | some oc =>
      simp only [syncCommand, bundleStable, hp, hc]
      refine ⟨?_, ?_, ?_, ?_⟩
      · intro nc hm
        rw [updateClaudeMdOrgSection_frame _ _ _ _ _ (itPath_ne_cmPath cwd nc.1)]
        rw [syncFiles_frame _ _ _ _ _ (fun mc _ => itPath_ne_wfPath cwd nc.1 mc.1)]
        rw [FS.files_mkDir]
        exact syncFiles_post _ _ _ _ h1 nc hm
      · intro c' hc'
        exact Option.noConfusion hc'
      · intro nc hm
        rw [updateClaudeMdOrgSection_frame _ _ _ _ _ (wfPath_ne_cmPath cwd nc.1)]
        exact syncFiles_post _ _ _ _ h2 nc hm
      · intro oc' hoc'
        have hcc := Option.some.inj hoc'
        subst hcc
        exact updateClaudeMdOrgSection_post _ _ _ _
    | none =>
      simp only [syncCommand, bundleStable, hp, hc]
      refine ⟨?_, ?_, ?_, ?_⟩
      · intro nc hm
        rw [syncFiles_frame _ _ _ _ _ (fun mc _ => itPath_ne_wfPath cwd nc.1 mc.1)]
        rw [FS.files_mkDir]
        exact syncFiles_post _ _ _ _ h1 nc hm
      · intro c' hc'
        exact Option.noConfusion hc'
      · intro nc hm
        exact syncFiles_post _ _ _ _ h2 nc hm
      · intro oc' hoc'
        exact Option.noConfusion hoc'

/-- pass, warn and fail counts partition the result list. -/
theorem counts_partition (rs : List VStatus) :
    passCount rs + warnCount rs + failCount rs = rs.length := by
  induction rs with
  | nil => rfl
  | cons s rest ih =>
    cases s <;>
      simp only [passCount, warnCount, failCount, List.countP_cons, List.length_cons] at ih ⊢ <;>
      simp <;> omega

/-- passCount distributes over list append. -/
theorem passCount_append (a b : List VStatus) :
    passCount (a ++ b) = passCount a + passCount b := by
  unfold passCount
  exact List.countP_append _ a b

/-- Adding a non-pass result does not change the pass count. -/
theorem passCount_append_single (rs : List VStatus) (s : VStatus)
    (hs : s ≠ VStatus.pass) : passCount (rs ++ [s]) = passCount rs := by
  rw [passCount_append]
  have : passCount [s] = 0 := by
    unfold passCount
    simp [List.countP_cons, hs]
  rw [this]
  ring

/-- The score as computed matches the specification formula, with warn and fail
results counted in the denominator. -/
theorem score_eq_spec (rs : List VStatus) : score rs = specScore rs := by
  unfold score specScore
  rw [counts_partition]
  congr 1
  ring

/-- Appending one non-pass result never increases the score. -/
theorem score_mono_aux (rs : List VStatus) (s : VStatus) (hne : rs ≠ [])
    (hs : s ≠ VStatus.pass) : score (rs ++ [s]) ≤ score rs := by
  unfold score
  rw [passCount_append_single rs s hs]
  have hl : ((rs ++ [s]).length : ℚ) = (rs.length : ℚ) + 1 := by
    push_cast [List.length_append]
    simp
  rw [hl]
  rw [round_eq, round_eq]
  apply Int.floor_le_floor
  have hn : (0 : ℚ) < (rs.length : ℚ) := by
    exact_mod_cast List.length_pos.mpr hne
  have hp : (0 : ℚ) ≤ (passCount rs : ℚ) := by positivity
  have hdiv : (passCount rs : ℚ) / ((rs.length : ℚ) + 1) ≤ (passCount rs : ℚ) / (rs.length : ℚ) := by
    gcongr
    linarith
  linarith

/-- The caught file fetch never propagates an error. -/
theorem fetchGitHubFileE_eq (o : Oracle) (p : String) :
    fetchGitHubFileE o p = Except.ok (fetchGitHubFile o p) := by
  unfold fetchGitHubFileE fetchGitHubFile
  cases h : o.fileContent p <;> simp [h, Except.tryCatch, Except.bind, Bind.bind, pure,
    Except.pure]

/-- The caught directory listing never propagates an error. -/
theorem listGitHubDirectoryE_eq (o : Oracle) (p : String) :
    listGitHubDirectoryE o p = Except.ok (listGitHubDirectory o p) := by
  unfold listGitHubDirectoryE listGitHubDirectory
  cases h : o.dirList p <;> simp [h, Except.tryCatch, pure, Except.pure]

/-- The fetch loop never propagates an error, and computes the fail-soft result. -/
theorem fetchNamedE_eq (o : Oracle) (dir : String) (exts : List String) :
    ∀ files, fetchNamedE o dir exts files = Except.ok (fetchNamed o dir exts files) := by
  intro files
  induction files with
  | nil => rfl
  | cons f rest ih =>
    unfold fetchNamedE fetchNamed
    by_cases hk : exts.any (fun e => f.endsWith e) = true
    · cases hg : fetchGitHubFile o (dir ++ "/" ++ f) with
      | none =>
        simp [hk, fetchGitHubFileE_eq, hg, ih, Except.bind, Bind.bind, pure, Except.pure]
      | some c =>
        by_cases hc : c.isEmpty = true <;>
          simp [hk, fetchGitHubFileE_eq, hg, hc, ih, Except.bind, Bind.bind, pure,
            Except.pure]
    · simp [hk, ih, Except.bind, Bind.bind, pure, Except.pure]

/-- The whole bundle fetch never propagates an error to its caller. -/
theorem fetchOrgTemplatesE_eq (o : Oracle) :
    fetchOrgTemplatesE o = Except.ok (fetchOrgTemplates o) := by
  unfold fetchOrgTemplatesE fetchOrgTemplates
  simp [fetchGitHubFileE_eq, listGitHubDirectoryE_eq, fetchNamedE_eq, Except.bind,
    Bind.bind, pure, Except.pure]

/-- Claim C2: for every non-rules target file, local content and candidate
content, the sync decision and the resulting filesystem with force = true are
identical to those with force = false: the force flag has no observable effect on
checkAndUpdate's result or on what is written. -/
theorem claim_C2 (fs : FS) (p : List String) (c : Content) (dryRun : Bool) :
    checkAndUpdate fs p c ⟨dryRun, true⟩ = checkAndUpdate fs p c ⟨dryRun, false⟩ := by
  unfold checkAndUpdate
  cases h : fs.files p with
  | none => rfl
  | some cur =>
    by_cases ht : trimL cur = trimL c
    · simp [ht]
    · cases dryRun <;> simp [ht]

/-- Claim C3: an existing rules document whose content does not contain the marker
string is skipped and left unchanged, for every bundle rules text and every
setting of the dry-run and force flags. -/
theorem claim_C3 (fs : FS) (p : List String) (oc cur : Content) (dryRun force : Bool)
    (h1 : fs.files p = some cur)
    (h2 : hasSub cur orgSectionMarker = false) :
    updateClaudeMdOrgSection fs p oc ⟨dryRun, force⟩ = (SyncAction.skip, fs) := by
  unfold updateClaudeMdOrgSection
  rw [h1]
  simp [h2]

/-- A one-file working directory holding a fully project-customized rules
document, without the marker. -/
def fsC3 : FS :=
  ⟨fun q => if q = ["CLAUDE.md"] then some "# My own rules\n".data else none,
   fun _ => false⟩

/-- Concrete instance of claim C3: a marker-free rules document is skipped and
the filesystem is unchanged, even under force. -/
theorem claim_C3_inst :
    fsC3.files ["CLAUDE.md"] = some "# My own rules\n".data
    ∧ hasSub "# My own rules\n".data orgSectionMarker = false
    ∧ updateClaudeMdOrgSection fsC3 ["CLAUDE.md"] "org text".data ⟨false, true⟩
        = (SyncAction.skip, fsC3) :=
  ⟨rfl, by decide,
   claim_C3 fsC3 ["CLAUDE.md"] "org text".data "# My own rules\n".data false true rfl
     (by decide)⟩

/-- Claim C5: for every existing non-rules target file whose trimmed local
content equals the trimmed candidate content, the decision is skip and the file
is not written, for every value of the dry-run and force flags. -/
theorem claim_C5 (fs : FS) (p : List String) (c cur : Content) (dryRun force : Bool)
    (h1 : fs.files p = some cur) (h2 : trimL cur = trimL c) :
    checkAndUpdate fs p c ⟨dryRun, force⟩ = (SyncAction.skip, fs) := by
  unfold checkAndUpdate
  rw [h1]
  simp [h2]

/-- A one-file working directory holding a workflow that differs from the
candidate only by surrounding whitespace. -/
def fsC5 : FS :=
  ⟨fun q => if q = [".github", "workflows", "ci.yml"] then some " name: CI \n".data
    else none,
   fun _ => false⟩

/-- Concrete instance of claim C5: trim-equal content is skipped with the
filesystem unchanged, under force. -/
theorem claim_C5_inst :
    fsC5.files [".github", "workflows", "ci.yml"] = some " name: CI \n".data
    ∧ trimL " name: CI \n".data = trimL "name: CI".data
    ∧ checkAndUpdate fsC5 [".github", "workflows", "ci.yml"] "name: CI".data
        ⟨false, true⟩ = (SyncAction.skip, fsC5) :=
  ⟨rfl, by decide,
   claim_C5 fsC5 [".github", "workflows", "ci.yml"] "name: CI".data " name: CI \n".data
     false true rfl (by decide)⟩

/-- Claim C4: for every existing rules document containing the marker, after a
non-dry-run sync the text before the first occurrence of the marker in the
resulting file is byte-identical to the text before the marker beforehand, and
the file is either untouched or rewritten as that prefix, the marker, two
newlines and the bundle rules text. -/
theorem claim_C4 (fs : FS) (p : List String) (oc cur : Content) (force : Bool)
    (h1 : fs.files p = some cur)
    (h2 : hasSub cur orgSectionMarker = true) :
    ∀ c, (updateClaudeMdOrgSection fs p oc ⟨false, force⟩).2.files p = some c →
      splitHead c orgSectionMarker = splitHead cur orgSectionMarker
      ∧ (c = cur
         ∨ c = splitHead cur orgSectionMarker ++ (orgSectionMarker ++ (nl2 ++ oc))) := by
  intro c hc
  by_cases ht : trimL cur
      = trimL (splitHead cur orgSectionMarker ++ (orgSectionMarker ++ (nl2 ++ oc)))
  · have e : updateClaudeMdOrgSection fs p oc ⟨false, force⟩ = (SyncAction.skip, fs) := by
      unfold updateClaudeMdOrgSection
      rw [h1]
      simp [h2, ht]
    rw [e, h1] at hc
    have hcc := Option.some.inj hc
    subst hcc
    exact ⟨rfl, Or.inl rfl⟩
  · have e : updateClaudeMdOrgSection fs p oc ⟨false, force⟩
        = (SyncAction.update,
           fs.write p (splitHead cur orgSectionMarker ++ (orgSectionMarker ++ (nl2 ++ oc)))) := by
      unfold updateClaudeMdOrgSection
      rw [h1]
      simp [h2, ht, List.append_assoc]
    rw [e, FS.files_write_self] at hc
    have hcc := Option.some.inj hc
    subst hcc
    exact ⟨splitHead_reassemble cur orgSectionMarker (nl2 ++ oc) h2, Or.inr rfl⟩

/-- The local rules document used in the concrete instance of claim C4: a
project-owned prefix, the marker, and a stale organization section. -/
def curC4 : Content :=
  "hello\n# 組織共通ルール（PROLE-ISLAND/.github より）\nold".data

/-- The file produced by the sync update in the concrete instance of claim C4. -/
def resC4 : Content :=
  "hello\n# 組織共通ルール（PROLE-ISLAND/.github より）\n\nneworg".data

/-- A one-file working directory holding curC4 as its rules document. -/
def fsC4 : FS :=
  ⟨fun q => if q = ["CLAUDE.md"] then some curC4 else none, fun _ => false⟩

/-- Concrete instance of claim C4: the prefix before the marker survives the
update byte for byte. -/
theorem claim_C4_inst :
    fsC4.files ["CLAUDE.md"] = some curC4
    ∧ hasSub curC4 orgSectionMarker = true
    ∧ (updateClaudeMdOrgSection fsC4 ["CLAUDE.md"] "neworg".data ⟨false, false⟩).2.files
        ["CLAUDE.md"] = some resC4
    ∧ (splitHead resC4 orgSectionMarker = splitHead curC4 orgSectionMarker
       ∧ (resC4 = curC4
          ∨ resC4 = splitHead curC4 orgSectionMarker
              ++ (orgSectionMarker ++ (nl2 ++ "neworg".data)))) :=
  ⟨rfl, by decide, by decide,
   claim_C4 fsC4 ["CLAUDE.md"] "neworg".data curC4 false rfl (by decide) resC4
     (by decide)⟩

/-- A nonempty pattern occurs once at the head of pat ++ u, plus whatever occurs
strictly later. -/
theorem occCount_cons_self (a : Char) (t u : Content) :
    occCount ((a :: t) ++ u) (a :: t) = 1 + occCount (t ++ u) (a :: t) := by
  simp only [List.cons_append]
  rw [show occCount (a :: (t ++ u)) (a :: t)
      = (if (a :: t).isPrefixOf (a :: (t ++ u)) then (1 : Nat) else 0)
        + occCount (t ++ u) (a :: t) from rfl]
  rw [if_pos ?hp]
  case hp =>
    rw [show a :: (t ++ u) = (a :: t) ++ u from rfl]
    exact ipo_append_self (a :: t) u

/-- Claim C10: when an existing rules document contains the marker (possibly more
than once) and the bundle rules text does not contain it, the file produced by a
non-dry-run sync update contains exactly one occurrence of the marker. -/
theorem claim_C10 (fs : FS) (p : List String) (oc cur : Content) (force : Bool)
    (h1 : fs.files p = some cur)
    (h2 : hasSub cur orgSectionMarker = true)
    (h3 : hasSub oc orgSectionMarker = false)
    (h4 : (updateClaudeMdOrgSection fs p oc ⟨false, force⟩).1 = SyncAction.update) :
    ∀ c, (updateClaudeMdOrgSection fs p oc ⟨false, force⟩).2.files p = some c →
      occCount c orgSectionMarker = 1 := by
  intro c hc
  by_cases ht : trimL cur
      = trimL (splitHead cur orgSectionMarker ++ (orgSectionMarker ++ (nl2 ++ oc)))
  · have e : updateClaudeMdOrgSection fs p oc ⟨false, force⟩ = (SyncAction.skip, fs) := by
      unfold updateClaudeMdOrgSection
      rw [h1]
      simp [h2, ht]
    rw [e] at h4
    exact absurd h4 (by simp)
  · have e : updateClaudeMdOrgSection fs p oc ⟨false, force⟩
        = (SyncAction.update,
           fs.write p (splitHead cur orgSectionMarker ++ (orgSectionMarker ++ (nl2 ++ oc)))) := by
      unfold updateClaudeMdOrgSection
      rw [h1]
      simp [h2, ht, List.append_assoc]
    rw [e, FS.files_write_self] at hc
    have hcc := Option.some.inj hc
    subst hcc
    rw [occCount_append_skip _ _ _ (no_match_before cur orgSectionMarker (nl2 ++ oc) h2)]
    rw [show (orgSectionMarker : Content) = '#' :: markerTail from marker_cons]
    rw [occCount_cons_self '#' markerTail (nl2 ++ oc)]
    have hz : occCount ((markerTail ++ nl2) ++ oc) ('#' :: markerTail) = 0 :=
      occCount_no_head '#' markerTail (markerTail ++ nl2) oc markerTail_nl2_no_hash
        (by rw [← marker_cons]; exact h3)
    rw [show markerTail ++ (nl2 ++ oc) = (markerTail ++ nl2) ++ oc from
      (List.append_assoc markerTail nl2 oc).symm]
    rw [hz]

/-- The local rules document used in the concrete instance of claim C10: it
contains the marker twice. -/
def curC10 : Content :=
  "a\n# 組織共通ルール（PROLE-ISLAND/.github より）\nmid\n# 組織共通ルール（PROLE-ISLAND/.github より）\nend".data

/-- The file produced by the sync update in the concrete instance of claim C10. -/
def resC10 : Content :=
  "a\n# 組織共通ルール（PROLE-ISLAND/.github より）\n\nfresh".data

/-- A one-file working directory holding curC10 as its rules document. -/
def fsC10 : FS :=
  ⟨fun q => if q = ["CLAUDE.md"] then some curC10 else none, fun _ => false⟩

/-- Concrete instance of claim C10: a duplicated marker collapses to a single
occurrence after the update. -/
theorem claim_C10_inst :
    fsC10.files ["CLAUDE.md"] = some curC10
    ∧ hasSub curC10 orgSectionMarker = true
    ∧ hasSub "fresh".data orgSectionMarker = false
    ∧ (updateClaudeMdOrgSection fsC10 ["CLAUDE.md"] "fresh".data ⟨false, false⟩).1
        = SyncAction.update
    ∧ (updateClaudeMdOrgSection fsC10 ["CLAUDE.md"] "fresh".data ⟨false, false⟩).2.files
        ["CLAUDE.md"] = some resC10
    ∧ occCount resC10 orgSectionMarker = 1 :=
  ⟨rfl, by decide, by decide, by decide, by decide,
   claim_C10 fsC10 ["CLAUDE.md"] "fresh".data curC10 false rfl (by decide) (by decide)
     (by decide) resC10 (by decide)⟩

/-- Claim C6: an existing non-rules target whose trimmed content differs from the
trimmed candidate gets decision update and, outside dry-run, is overwritten with
the candidate even when force is absent; consequently a second immediate
non-dry-run sync of the same bundle (with distinct template filenames, as
JavaScript object keys are) reports skip for every file. -/
theorem claim_C6 :
    (∀ (fs : FS) (p : List String) (c cur : Content) (force : Bool),
        fs.files p = some cur → ¬ trimL cur = trimL c →
        checkAndUpdate fs p c ⟨false, force⟩ = (SyncAction.update, fs.write p c))
    ∧ (∀ (fs : FS) (cwd : List String) (tpl : OrgTemplates) (f1 f2 : Bool),
        (tpl.issueTemplates.map Prod.fst).Nodup →
        (tpl.workflows.map Prod.fst).Nodup →
        ((syncCommand (syncCommand fs cwd tpl ⟨false, f1⟩).2 cwd tpl ⟨false, f2⟩).1).all
          (fun pa => pa.2 == SyncAction.skip) = true) := by
  constructor
  · intro fs p c cur force h1 h2
    unfold checkAndUpdate
    rw [h1]
    cases force <;> simp [h2]
  · intro fs cwd tpl f1 f2 h1 h2
    rw [List.all_eq_true]
    intro pa hpa
    rw [beq_iff_eq]
    exact syncCommand_allSkip _ cwd tpl _ (syncCommand_post fs cwd tpl f1 h1 h2) pa hpa

/-- The bundle used in the concrete instance of claim C6. -/
def tplC6 : OrgTemplates :=
  { claudeMd := some "shared rules".data,
    issueTemplates := [("bug.yml", "name: Bug".data)],
    prTemplate := some "## Summary".data,
    workflows := [("ci.yml", "name: CI".data)] }

/-- A working directory holding a stale workflow file. -/
def fsC6 : FS :=
  ⟨fun q => if q = [".github", "workflows", "ci.yml"] then some "name: Old CI".data
    else none,
   fun _ => false⟩

/-- Concrete instance of claim C6: a differing file is overwritten with the
candidate without force, and a second sync of the same bundle reports only
skip. -/
theorem claim_C6_inst :
    (fsC6.files [".github", "workflows", "ci.yml"] = some "name: Old CI".data
     ∧ ¬ trimL "name: Old CI".data = trimL "name: CI".data
     ∧ checkAndUpdate fsC6 [".github", "workflows", "ci.yml"] "name: CI".data
         ⟨false, false⟩
       = (SyncAction.update, fsC6.write [".github", "workflows", "ci.yml"] "name: CI".data))
    ∧ ((tplC6.issueTemplates.map Prod.fst).Nodup
       ∧ (tplC6.workflows.map Prod.fst).Nodup
       ∧ ((syncCommand (syncCommand fsC6 [] tplC6 ⟨false, false⟩).2 [] tplC6
            ⟨false, false⟩).1).all (fun pa => pa.2 == SyncAction.skip) = true) :=
  ⟨⟨rfl, by decide,
    claim_C6.1 fsC6 [".github", "workflows", "ci.yml"] "name: CI".data
      "name: Old CI".data false rfl (by decide)⟩,
   ⟨by decide, by decide,
    claim_C6.2 fsC6 [] tplC6 false false (by decide) (by decide)⟩⟩

/-- Claim C7: the aggregate validation score equals round(100 x pass_count /
total_result_count) with warn and fail results counted in the denominator, and
appending one more warn or fail result to a nonempty validation run never
increases the reported score. -/
theorem claim_C7 :
    (∀ rs : List VStatus, score rs = specScore rs)
    ∧ (∀ (rs : List VStatus) (s : VStatus), rs ≠ [] →
        s = VStatus.warn ∨ s = VStatus.fail → score (rs ++ [s]) ≤ score rs) := by
  constructor
  · exact score_eq_spec
  · intro rs s hne hs
    refine score_mono_aux rs s hne ?_
    rcases hs with h | h <;> subst h <;> decide

/-- Concrete instance of claim C7: the score formula on a pass/warn run, and the
score drop when one more warn is appended. -/
theorem claim_C7_inst :
    ([VStatus.pass, VStatus.warn] ≠ ([] : List VStatus))
    ∧ (VStatus.warn = VStatus.warn ∨ VStatus.warn = VStatus.fail)
    ∧ score [VStatus.pass, VStatus.warn] = specScore [VStatus.pass, VStatus.warn]
    ∧ score ([VStatus.pass, VStatus.warn] ++ [VStatus.warn])
        ≤ score [VStatus.pass, VStatus.warn] :=
  ⟨by decide, Or.inl rfl, claim_C7.1 [VStatus.pass, VStatus.warn],
   claim_C7.2 [VStatus.pass, VStatus.warn] VStatus.warn (by decide) (Or.inl rfl)⟩

/-- Claim C8: the best-effort remote-comparison check passes exactly when the
first 100 characters of the trimmed remote rules document occur as a substring of
the local rules document, warns when they do not, and warns (never fails) when
the remote fetch itself errors. -/
theorem claim_C8 (org lc : Content) (e : String) :
    (validateOrgSync (Except.ok org) (some lc) = VStatus.pass
      ↔ hasSub lc ((trimL org).take 100) = true)
    ∧ (validateOrgSync (Except.ok org) (some lc) = VStatus.warn
      ↔ hasSub lc ((trimL org).take 100) = false)
    ∧ validateOrgSync (Except.error e) (some lc) = VStatus.warn
    ∧ validateOrgSync (Except.error e) none = VStatus.warn := by
  unfold validateOrgSync
  by_cases h : hasSub lc ((trimL org).take 100) = true
  · simp [h]
  · simp only [Bool.not_eq_true] at h
    simp [h]

/-- Claim C9: the template fetch never throws to its caller - written in the
Except monad it always returns ok - each individually failed artifact is recorded
as absent or empty in the bundle, and when every remote access fails the result
is a bundle with all fields absent or empty rather than an error. -/
theorem claim_C9 (o : Oracle) (eA eB eC eD : String) :
    fetchOrgTemplatesE o = Except.ok (fetchOrgTemplates o)
    ∧ (o.fileContent "CLAUDE.md" = Except.error eA → (fetchOrgTemplates o).claudeMd = none)
    ∧ (o.fileContent "PULL_REQUEST_TEMPLATE.md" = Except.error eB →
        (fetchOrgTemplates o).prTemplate = none)
    ∧ (o.dirList "ISSUE_TEMPLATE" = Except.error eC →
        (fetchOrgTemplates o).issueTemplates = [])
    ∧ (o.dirList "workflow-templates" = Except.error eD →
        (fetchOrgTemplates o).workflows = [])
    ∧ (o.fileContent "CLAUDE.md" = Except.error eA →
       o.fileContent "PULL_REQUEST_TEMPLATE.md" = Except.error eB →
       o.dirList "ISSUE_TEMPLATE" = Except.error eC →
       o.dirList "workflow-templates" = Except.error eD →
        fetchOrgTemplates o
          = { claudeMd := none, issueTemplates := [], prTemplate := none,
              workflows := [] }) := by
  refine ⟨fetchOrgTemplatesE_eq o, ?_, ?_, ?_, ?_, ?_⟩
  · intro hA
    simp [fetchOrgTemplates, fetchGitHubFile, hA]
  · intro hB
    simp [fetchOrgTemplates, fetchGitHubFile, hB]
  · intro hC
    simp [fetchOrgTemplates, listGitHubDirectory, hC, fetchNamed]
  · intro hD
    simp [fetchOrgTemplates, listGitHubDirectory, hD, fetchNamed]
  · intro hA hB hC hD
    simp [fetchOrgTemplates, fetchGitHubFile, listGitHubDirectory, hA, hB, hC, hD,
      fetchNamed]

/-- An oracle on which every remote access fails. -/
def oracleDown : Oracle :=
  ⟨fun _ => Except.error "offline", fun _ => Except.error "offline"⟩

/-- Concrete instance of claim C9: with every remote access failing, the fetch
still returns the all-absent bundle, with no error. -/
theorem claim_C9_inst :
    oracleDown.fileContent "CLAUDE.md" = Except.error "offline"
    ∧ oracleDown.fileContent "PULL_REQUEST_TEMPLATE.md" = Except.error "offline"
    ∧ oracleDown.dirList "ISSUE_TEMPLATE" = Except.error "offline"
    ∧ oracleDown.dirList "workflow-templates" = Except.error "offline"
    ∧ fetchOrgTemplatesE oracleDown = Except.ok (fetchOrgTemplates oracleDown)
    ∧ fetchOrgTemplates oracleDown
        = { claudeMd := none, issueTemplates := [], prTemplate := none,
            workflows := [] } :=
  ⟨rfl, rfl, rfl, rfl,
   (claim_C9 oracleDown "offline" "offline" "offline" "offline").1,
   (claim_C9 oracleDown "offline" "offline" "offline" "offline").2.2.2.2.2
     rfl rfl rfl rfl⟩

/-- An empty working directory: no files, no directories. -/
def fsEmpty : FS := ⟨fun _ => none, fun _ => false⟩

/-- The bundle used in the concrete dry-run evidence for claim C1. -/
def tplC1 : OrgTemplates :=
  { claudeMd := some "shared rules".data,
    issueTemplates := [("bug.yml", "name: Bug".data)],
    prTemplate := none,
    workflows := [] }

/-- Claim C1 evidence: on an empty working directory, a dry-run sync writes no
file and reports the same decisions as a non-dry-run sync would, but it does
create the .github/ISSUE_TEMPLATE directory (fs.ensureDir at sync.ts lines 31 and
49 runs before the dry-run flag is ever consulted), so dry-run is not free of
filesystem mutation. -/
theorem claim_C1 :
    (syncCommand fsEmpty [] tplC1 ⟨true, false⟩).1
        = (syncCommand fsEmpty [] tplC1 ⟨false, false⟩).1
    ∧ (syncCommand fsEmpty [] tplC1 ⟨true, false⟩).2.files
        [".github", "ISSUE_TEMPLATE", "bug.yml"] = none
    ∧ (syncCommand fsEmpty [] tplC1 ⟨true, false⟩).2.files ["CLAUDE.md"] = none
    ∧ fsEmpty.dirs [".github", "ISSUE_TEMPLATE"] = false
    ∧ (syncCommand fsEmpty [] tplC1 ⟨true, false⟩).2.dirs [".github", "ISSUE_TEMPLATE"]
        = true := by
  refine ⟨?_, ?_, ?_, rfl, ?_⟩ <;> decide
